import Mathlib

/-!
Verification development for the Eclair validator-side incentive engine.

The repository ships the validator's documentation (README, docs/) together
with a landing page and its proxy API route.  The components below are
embedded shallowly in Lean:

* the Win-Rate Aggregator and Weight Resolver (modelled from the spec, since
  `validator.py` is not part of the source tree);
* the Sample Archiver's write ordering (modelled from the spec);
* `WeightSetter.set_weights_if_ready` and `query_miners_concurrently`
  (translated from the code in `docs/02-core-concepts.md`);
* the `/api/generate` proxy handler (`Eclair/app/api/generate.js`) and the
  studio client's `handleGenerate` (`Eclair/app/src/components/StudioInput.tsx`).

Rational numbers stand in for the floating-point win rates and weights, so
every statement "within floating tolerance" is proved exactly.
-/

namespace Eclair

/-! ## Judge verdicts and sample bundles -/

/-- Outcome of one forced-choice comparison: which of the two videos the
judge picked, or `inconclusive` when the judge's reply was outside the
expected schema. -/
inductive Winner
  | original
  | generated
  | inconclusive
deriving DecidableEq

/-- One judged comparison for one miner in one round. -/
structure JudgeVerdict where
  miner_id : Nat
  winner : Winner
deriving DecidableEq

/-- The durable unit of record for one round: its identifier and the
verdicts recorded in `metadata.json`. -/
structure SampleBundle where
  round_id : Nat
  verdicts : List JudgeVerdict
deriving DecidableEq

/-- A verdict that counts as a win for miner `m`: the judge chose the
generated video. -/
def isWin (m : Nat) (v : JudgeVerdict) : Bool :=
  v.miner_id == m && v.winner == Winner.generated

/-- A verdict that counts as a loss for miner `m`: the judge chose the
original clip. -/
def isLoss (m : Nat) (v : JudgeVerdict) : Bool :=
  v.miner_id == m && v.winner == Winner.original

/-- Total wins of miner `m` across a bundle history. -/
def wins (bs : List SampleBundle) (m : Nat) : Nat :=
  (bs.map (fun b => b.verdicts.countP (isWin m))).sum

/-- Total losses of miner `m` across a bundle history. -/
def losses (bs : List SampleBundle) (m : Nat) : Nat :=
  (bs.map (fun b => b.verdicts.countP (isLoss m))).sum

/-- Per-miner aggregation result: wins, judged total and the quotient. -/
structure WinRateRecord where
  miner_id : Nat
  record_wins : Nat
  total : Nat
  win_rate : ℚ
deriving DecidableEq

/-- One step of the aggregation fold: a win bumps both counters, a loss
bumps only the total, an inconclusive verdict (or a verdict for another
miner) leaves both untouched. -/
def tallyStep (m : Nat) (acc : Nat × Nat) (v : JudgeVerdict) : Nat × Nat :=
  if v.miner_id == m then
    match v.winner with
    | Winner.generated => (acc.1 + 1, acc.2 + 1)
    | Winner.original => (acc.1, acc.2 + 1)
    | Winner.inconclusive => acc
  else acc

/-- Fold the whole bundle history into `(wins, win+loss total)` for one
miner. -/
def tally (bs : List SampleBundle) (m : Nat) : Nat × Nat :=
  bs.foldl (fun acc b => b.verdicts.foldl (tallyStep m) acc) (0, 0)

/-- Modelled from the spec: `compute_win_rates` of the Win-Rate Aggregator
(§4.6; the validator core is not under the source tree).  It folds wins and
win+loss totals per miner over the archived bundles and excludes miners
with zero judged comparisons. -/
def compute_win_rates (bs : List SampleBundle) (m : Nat) : Option WinRateRecord :=
  let t := tally bs m
  if t.2 = 0 then none
  else some ⟨m, t.1, t.2, (t.1 : ℚ) / (t.2 : ℚ)⟩

theorem foldl_tallyStep (m : Nat) (l : List JudgeVerdict) (acc : Nat × Nat) :
    l.foldl (tallyStep m) acc =
      (acc.1 + l.countP (isWin m), acc.2 + l.countP (isWin m) + l.countP (isLoss m)) := by
  induction l generalizing acc with
  | nil => simp
  | cons v vs ih =>
    rw [List.foldl_cons, ih]
    rcases acc with ⟨w, t⟩
    simp only [tallyStep, isWin, isLoss, List.countP_cons]
    by_cases hm : v.miner_id == m
    · simp only [hm, if_true, Bool.true_and]
      cases hw : v.winner <;> simp <;> omega
    · simp only [hm, if_neg, Bool.false_and]
      simp

theorem tally_eq (bs : List SampleBundle) (m : Nat) :
    tally bs m = (wins bs m, wins bs m + losses bs m) := by
  suffices h : ∀ acc : Nat × Nat,
      bs.foldl (fun acc b => b.verdicts.foldl (tallyStep m) acc) acc =
        (acc.1 + wins bs m, acc.2 + wins bs m + losses bs m) by
    have := h (0, 0)
    simpa [tally] using this
  induction bs with
  | nil => intro acc; simp [wins, losses]
  | cons b bs ih =>
    intro acc
    rw [List.foldl_cons, foldl_tallyStep, ih]
    simp [wins, losses]
    omega

/-- A list of verdicts that are all inconclusive contributes no wins. -/
theorem countP_isWin_of_inconclusive (m : Nat) (l : List JudgeVerdict)
    (h : ∀ v ∈ l, v.winner = Winner.inconclusive) : l.countP (isWin m) = 0 := by
  rw [List.countP_eq_zero]
  intro v hv
  simp [isWin, h v hv]

/-- A list of verdicts that are all inconclusive contributes no losses. -/
theorem countP_isLoss_of_inconclusive (m : Nat) (l : List JudgeVerdict)
    (h : ∀ v ∈ l, v.winner = Winner.inconclusive) : l.countP (isLoss m) = 0 := by
  rw [List.countP_eq_zero]
  intro v hv
  simp [isLoss, h v hv]

/-- C2: for every miner with at least one non-inconclusive judged comparison,
the aggregator's record satisfies `win_rate = wins / total` where the total is
exactly wins + losses — inconclusive verdicts appear in neither counter, and
appending a bundle consisting only of inconclusive verdicts leaves the record
unchanged. -/
theorem win_rate_counts_only_decisive (bs : List SampleBundle) (m : Nat)
    (r : WinRateRecord) (h : compute_win_rates bs m = some r) :
    r.record_wins = wins bs m ∧
    r.total = wins bs m + losses bs m ∧
    r.win_rate = (wins bs m : ℚ) / ((wins bs m + losses bs m : Nat) : ℚ) ∧
    1 ≤ r.total ∧
    ∀ rid extra, (∀ v ∈ extra, v.winner = Winner.inconclusive) →
      compute_win_rates (bs ++ [⟨rid, extra⟩]) m = some r := by
  have htal : tally bs m = (wins bs m, wins bs m + losses bs m) := tally_eq bs m
  unfold compute_win_rates at h
  rw [htal] at h
  by_cases hz : wins bs m + losses bs m = 0
  · simp [hz] at h
  · simp only [hz, if_neg, if_false, Option.some.injEq] at h
    subst h
    refine ⟨rfl, rfl, rfl, by show 1 ≤ wins bs m + losses bs m; omega, ?_⟩
    intro rid extra hinc
    have hw : wins (bs ++ [⟨rid, extra⟩]) m = wins bs m := by
      simp [wins, countP_isWin_of_inconclusive m extra hinc]
    have hl : losses (bs ++ [⟨rid, extra⟩]) m = losses bs m := by
      simp [losses, countP_isLoss_of_inconclusive m extra hinc]
    unfold compute_win_rates
    rw [tally_eq, hw, hl]
    simp [hz]

/-- Closed instance of `win_rate_counts_only_decisive`: a history with one
win, one loss and one inconclusive verdict for miner 7 yields the record
`(wins 1, total 2, rate 1/2)`. -/
theorem win_rate_counts_only_decisive_witness :
    compute_win_rates
        [⟨0, [⟨7, Winner.generated⟩, ⟨7, Winner.inconclusive⟩]⟩,
         ⟨1, [⟨7, Winner.original⟩]⟩] 7 =
      some ⟨7, 1, 2, (1 : ℚ) / 2⟩ ∧
    (⟨7, 1, 2, (1 : ℚ) / 2⟩ : WinRateRecord).win_rate =
      ((wins [⟨0, [⟨7, Winner.generated⟩, ⟨7, Winner.inconclusive⟩]⟩,
              ⟨1, [⟨7, Winner.original⟩]⟩] 7 : Nat) : ℚ) /
        ((wins [⟨0, [⟨7, Winner.generated⟩, ⟨7, Winner.inconclusive⟩]⟩,
                ⟨1, [⟨7, Winner.original⟩]⟩] 7 +
          losses [⟨0, [⟨7, Winner.generated⟩, ⟨7, Winner.inconclusive⟩]⟩,
                  ⟨1, [⟨7, Winner.original⟩]⟩] 7 : Nat) : ℚ) := by
  have hc : compute_win_rates
      [⟨0, [⟨7, Winner.generated⟩, ⟨7, Winner.inconclusive⟩]⟩,
       ⟨1, [⟨7, Winner.original⟩]⟩] 7 =
      some ⟨7, 1, 2, (1 : ℚ) / 2⟩ := by
    simp [compute_win_rates, tally, tallyStep]
  exact ⟨hc, (win_rate_counts_only_decisive _ 7 _ hc).2.2.1⟩

/-- C7: the aggregation is a pure function of the archived bundle set — any
two parties folding the same bundles, in any enumeration order, obtain the
identical `WinRateRecord` for every miner. -/
theorem compute_win_rates_deterministic (bs1 bs2 : List SampleBundle)
    (h : bs1.Perm bs2) (m : Nat) :
    compute_win_rates bs1 m = compute_win_rates bs2 m := by
  have hw : wins bs1 m = wins bs2 m := by
    unfold wins
    exact (h.map _).sum_eq
  have hl : losses bs1 m = losses bs2 m := by
    unfold losses
    exact (h.map _).sum_eq
  unfold compute_win_rates
  rw [tally_eq, tally_eq, hw, hl]

/-- Closed instance of `compute_win_rates_deterministic`: reading the same
two bundles in either order yields identical records. -/
theorem compute_win_rates_deterministic_witness :
    compute_win_rates [⟨0, [⟨3, Winner.generated⟩]⟩, ⟨1, [⟨3, Winner.original⟩]⟩] 3 =
      compute_win_rates [⟨1, [⟨3, Winner.original⟩]⟩, ⟨0, [⟨3, Winner.generated⟩]⟩] 3 :=
  compute_win_rates_deterministic _ _ (List.Perm.swap _ _ _) 3

/-! ## Weight Resolver -/

/-- Modelled from the spec: the beat-margin test of the Weight Resolver
(§4.7; README "Weights: Winner-take-all (leader must beat all predecessors
by epsilon)"; the validator core is not under the source tree).  A miner
retains full weight only when its win rate exceeds every other miner's win
rate by at least `eps`. -/
def beatsAll (rates : List (Nat × ℚ)) (eps : ℚ) (p : Nat × ℚ) : Bool :=
  rates.all (fun q => q.1 == p.1 || decide (q.2 + eps ≤ p.2))

/-- Modelled from the spec: `resolve(win_rates, epsilon)` of the Weight
Resolver (§4.7).  Each miner is paired with weight 1 when it beats all
rivals by the margin and weight 0 otherwise; contested rates therefore
yield the all-zero vector. -/
def resolve (rates : List (Nat × ℚ)) (eps : ℚ) : List (Nat × ℚ) :=
  rates.map (fun p => (p.1, if beatsAll rates eps p then (1 : ℚ) else 0))

/-- C1: a miner carries weight 1 in the resolved vector only when its win
rate is at least `eps` above every other miner's, and any two-miner profile
whose margin is below `eps` in both directions resolves to the all-zero
vector. -/
theorem resolve_epsilon_rule :
    (∀ (rates : List (Nat × ℚ)) (eps : ℚ), (rates.map Prod.fst).Nodup →
      ∀ p ∈ rates, (p.1, (1 : ℚ)) ∈ resolve rates eps →
        ∀ q ∈ rates, q.1 ≠ p.1 → q.2 + eps ≤ p.2) ∧
    (∀ (a b : Nat) (ra rb eps : ℚ), a ≠ b → ra - rb < eps → rb - ra < eps →
      resolve [(a, ra), (b, rb)] eps = [(a, 0), (b, 0)]) := by
  constructor
  · intro rates eps hnd p hp hmem q hq hne
    rcases List.mem_map.mp hmem with ⟨p', hp', hpe⟩
    have h12 := Prod.ext_iff.mp hpe
    have hpp : p' = p := List.inj_on_of_nodup_map hnd hp' hp h12.1
    subst hpp
    have hw : (if beatsAll rates eps p' then (1 : ℚ) else 0) = 1 := h12.2
    have hb : beatsAll rates eps p' = true := by
      by_contra hb
      rw [if_neg hb] at hw
      norm_num at hw
    have := (List.all_eq_true.mp hb) q hq
    rcases Bool.or_eq_true_iff.mp this with h | h
    · exact absurd (Nat.beq_eq_true_eq _ _ ▸ h : q.1 = p'.1) hne
    · exact of_decide_eq_true h
  · intro a b ra rb eps hab h1 h2
    have hba : beatsAll [(a, ra), (b, rb)] eps (a, ra) = false := by
      simp only [beatsAll, List.all_cons, List.all_nil, Bool.and_true]
      have : ¬ (rb + eps ≤ ra) := by intro h; linarith
      simp [Nat.ne_of_beq_eq_false, hab, Ne.symm hab, this]
    have hbb : beatsAll [(a, ra), (b, rb)] eps (b, rb) = false := by
      simp only [beatsAll, List.all_cons, List.all_nil, Bool.and_true]
      have : ¬ (ra + eps ≤ rb) := by intro h; linarith
      simp [hab, Ne.symm hab, this]
    simp [resolve, hba, hbb]

/-- Closed instance of `resolve_epsilon_rule`: with win rates
`A = 52/100`, `B = 50/100` and `eps = 5/100` the margin is below epsilon,
so both contested miners resolve to weight zero. -/
theorem resolve_epsilon_rule_witness :
    resolve [(0, 52 / 100), (1, 50 / 100)] (5 / 100) = [(0, 0), (1, 0)] :=
  resolve_epsilon_rule.2 0 1 (52 / 100) (50 / 100) (5 / 100)
    (by decide) (by norm_num) (by norm_num)

theorem sum_map_ite_one (l : List (Nat × ℚ)) (f : Nat × ℚ → Bool) :
    (l.map (fun a => if f a then (1 : ℚ) else 0)).sum = l.countP f := by
  induction l with
  | nil => simp
  | cons a l ih =>
    simp only [List.map_cons, List.sum_cons, List.countP_cons, ih]
    by_cases h : f a
    · simp only [h, if_true]
      push_cast
      ring
    · simp [h]

theorem length_le_one_of_nodup {α : Type} (l : List α) (hnd : l.Nodup)
    (h : ∀ x ∈ l, ∀ y ∈ l, x = y) : l.length ≤ 1 := by
  cases l with
  | nil => simp
  | cons a t =>
    cases t with
    | nil => simp
    | cons b t' =>
      exfalso
      have hab : a = b := h a (by simp) b (by simp)
      rw [List.nodup_cons] at hnd
      exact hnd.1 (hab ▸ List.mem_cons_self b t')

/-- With a strictly positive margin and distinct miner ids, two distinct
rate entries cannot both beat everyone else by the margin. -/
theorem beatsAll_pair_false (rates : List (Nat × ℚ)) (eps : ℚ) (heps : 0 < eps)
    (hnd : (rates.map Prod.fst).Nodup) :
    ∀ x ∈ rates, ∀ y ∈ rates, x ≠ y →
      ¬(beatsAll rates eps x = true ∧ beatsAll rates eps y = true) := by
  rintro x hx y hy hne ⟨hbx, hby⟩
  have hxy : x.1 ≠ y.1 := fun h => hne (List.inj_on_of_nodup_map hnd hx hy h)
  have h1 := (List.all_eq_true.mp hbx) y hy
  have h2 := (List.all_eq_true.mp hby) x hx
  rcases Bool.or_eq_true_iff.mp h1 with h | h
  · exact hxy ((Nat.beq_eq_true_eq _ _).mp h).symm
  · rcases Bool.or_eq_true_iff.mp h2 with h' | h'
    · exact hxy ((Nat.beq_eq_true_eq _ _).mp h')
    · have ha : y.2 + eps ≤ x.2 := of_decide_eq_true h
      have hb : x.2 + eps ≤ y.2 := of_decide_eq_true h'
      linarith

theorem countP_beatsAll_le_one (rates : List (Nat × ℚ)) (eps : ℚ)
    (hnd : (rates.map Prod.fst).Nodup) (heps : 0 < eps) :
    rates.countP (beatsAll rates eps) ≤ 1 := by
  rw [List.countP_eq_length_filter]
  refine length_le_one_of_nodup _ ((List.Nodup.of_map _ hnd).filter _) ?_
  intro x hx y hy
  by_contra hne
  exact beatsAll_pair_false rates eps heps hnd
    x (List.mem_of_mem_filter hx) y (List.mem_of_mem_filter hy) hne
    ⟨List.of_mem_filter hx, List.of_mem_filter hy⟩

/-- C3: with a positive margin and pairwise-distinct miner ids, every
entry of the resolved weight vector is non-negative, the entries sum to at
most 1, and an empty evidence set resolves to the all-zero (empty) vector
rather than an error. -/
theorem resolve_weights_bounded (rates : List (Nat × ℚ)) (eps : ℚ)
    (hnd : (rates.map Prod.fst).Nodup) (heps : 0 < eps) :
    (∀ p ∈ resolve rates eps, 0 ≤ p.2) ∧
    ((resolve rates eps).map Prod.snd).sum ≤ 1 ∧
    resolve [] eps = [] := by
  refine ⟨?_, ?_, rfl⟩
  · intro p hp
    rcases List.mem_map.mp hp with ⟨q, hq, rfl⟩
    dsimp only
    split <;> norm_num
  · have hmap : (resolve rates eps).map Prod.snd =
        rates.map (fun p => if beatsAll rates eps p then (1 : ℚ) else 0) := by
      simp [resolve, List.map_map, Function.comp]
    rw [hmap, sum_map_ite_one]
    exact_mod_cast countP_beatsAll_le_one rates eps hnd heps

/-- Closed instance of `resolve_weights_bounded`: a clear leader at 3/5
over 2/5 with margin 1/10 yields total weight at most 1. -/
theorem resolve_weights_bounded_witness :
    ((resolve [(0, 3 / 5), (1, 2 / 5)] (1 / 10)).map Prod.snd).sum ≤ 1 :=
  (resolve_weights_bounded [(0, 3 / 5), (1, 2 / 5)] (1 / 10)
    (by decide) (by norm_num)).2.1

/-! ## Sample Archiver -/

/-- Artifact keys of one round under the layout
`bucket/<round_timestamp>/...` (README "Storage"). -/
def blobKeys (ts : String) (miners : List String) : List String :=
  (ts ++ "/original_clip.mp4") :: (ts ++ "/first_frame.png") ::
    miners.map (fun m => ts ++ "/miner_" ++ m ++ ".mp4")

/-- Metadata key of one round, written last. -/
def metaKey (ts : String) : String :=
  ts ++ "/metadata.json"

/-- Write the blob keys in order against a per-key success oracle `ok`,
stopping at the first failure: returns the keys actually written and
whether every write succeeded. -/
def writeBlobs (ok : String → Bool) : List String → List String × Bool
  | [] => ([], true)
  | k :: ks =>
    if ok k then
      let r := writeBlobs ok ks
      (k :: r.1, r.2)
    else ([], false)

/-- Modelled from the spec: `archive(bundle)` of the Sample Archiver (§4.5;
the validator core is not under the source tree).  All blobs are written
first; `metadata.json` is written only after every blob write succeeded, so
a failed round leaves at most dangling blobs, never metadata. -/
def archive (ok : String → Bool) (blobs : List String) (meta : String)
    (store : List String) : List String :=
  let r := writeBlobs ok blobs
  if r.2 && ok meta then store ++ r.1 ++ [meta] else store ++ r.1

theorem writeBlobs_subset (ok : String → Bool) (l : List String) :
    ∀ k ∈ (writeBlobs ok l).1, k ∈ l := by
  induction l with
  | nil => simp [writeBlobs]
  | cons a t ih =>
    intro k hk
    simp only [writeBlobs] at hk
    by_cases ha : ok a
    · rw [if_pos ha] at hk
      rcases List.mem_cons.mp hk with h | h
      · simp [h]
      · exact List.mem_cons_of_mem a (ih k h)
    · rw [if_neg ha] at hk
      simp at hk

theorem writeBlobs_complete (ok : String → Bool) (l : List String)
    (h : (writeBlobs ok l).2 = true) : (writeBlobs ok l).1 = l := by
  induction l with
  | nil => simp [writeBlobs]
  | cons a t ih =>
    simp only [writeBlobs] at h ⊢
    by_cases ha : ok a
    · rw [if_pos ha] at h ⊢
      simpa using ih h
    · rw [if_neg ha] at h
      simp at h

/-- C5: if the round's `metadata.json` key is present in storage after
archiving (and was not there before, nor shadowed by a blob key), then every
blob key of the round is present as well — metadata presence implies round
completeness. -/
theorem archive_meta_implies_complete (ok : String → Bool)
    (blobs : List String) (meta : String) (store : List String)
    (hms : meta ∉ store) (hmb : meta ∉ blobs)
    (h : meta ∈ archive ok blobs meta store) :
    ∀ k ∈ blobs, k ∈ archive ok blobs meta store := by
  unfold archive at h ⊢
  by_cases hc : (writeBlobs ok blobs).2 && ok meta
  · rw [if_pos hc] at h ⊢
    have hfull : (writeBlobs ok blobs).1 = blobs :=
      writeBlobs_complete ok blobs (Bool.and_elim_left hc)
    intro k hk
    rw [hfull]
    simp [hk]
  · rw [if_neg hc] at h
    exfalso
    rcases List.mem_append.mp h with h' | h'
    · exact hms h'
    · exact hmb (writeBlobs_subset ok blobs meta h')

/-- Closed instance of `archive_meta_implies_complete`: with every write
succeeding for one miner round, the metadata key is present and so is the
round's original clip key. -/
theorem archive_meta_implies_complete_witness :
    "r1/original_clip.mp4" ∈
      archive (fun _ => true) (blobKeys "r1" ["m1"]) (metaKey "r1") [] :=
  archive_meta_implies_complete (fun _ => true) (blobKeys "r1" ["m1"])
    (metaKey "r1") [] (by decide) (by decide) (by decide)
    "r1/original_clip.mp4" (by decide)

/-! ## Miner Gateway (`query_miners_concurrently`, docs/02-core-concepts.md) -/

/-- One miner query as in `query_one`: the network oracle `net` yields
`some body` for an HTTP 200 response with JSON body `body`, and `none` when
the request raised, timed out, or returned a non-200 status. -/
def query_one (net : Nat → Option String) (uid : Nat) : Nat × Option String :=
  (uid, net uid)

/-- Translation of `query_miners_concurrently` (docs/02-core-concepts.md):
tasks are built for every uid below `metagraph.n` that has a committed
endpoint, each task yields `(uid, response-or-None)`, and the final dict
comprehension keeps only the entries whose response is not `None`. -/
def query_miners_concurrently (n : Nat) (endpoint : Nat → Option String)
    (net : Nat → Option String) : List (Nat × String) :=
  let tasks := (List.range n).filter (fun uid => (endpoint uid).isSome)
  (tasks.map (query_one net)).filterMap (fun p => p.2.map (fun r => (p.1, r)))

/-- C4 counterexample: one registered miner (uid 0) with a committed
endpoint whose query times out.  The gateway result is the empty dict — the
miner is omitted entirely, not recorded as an entry with an error field —
while one miner was considered. -/
theorem query_miners_omits_failures :
    query_miners_concurrently 1 (fun _ => some "http://miner0") (fun _ => none) = [] ∧
    ((List.range 1).filter
      (fun uid => ((fun _ => some "http://miner0") uid).isSome)).length = 1 := by
  constructor
  · rfl
  · rfl

/-- C4 (amended): the gateway result contains an entry exactly for the
considered miners whose query succeeded — `(uid, r)` is in the result iff
`uid` is below the metagraph size, has a committed endpoint, and the
network returned 200 with body `r`; failed or timed-out miners are omitted
rather than recorded with an error, and no uid appears twice. -/
theorem query_miners_success_only (n : Nat) (endpoint : Nat → Option String)
    (net : Nat → Option String) :
    (∀ uid r, (uid, r) ∈ query_miners_concurrently n endpoint net ↔
      uid < n ∧ (endpoint uid).isSome ∧ net uid = some r) ∧
    ((query_miners_concurrently n endpoint net).map Prod.fst).Nodup := by
  constructor
  · intro uid r
    simp only [query_miners_concurrently, List.mem_filterMap, List.mem_map,
      List.mem_filter, List.mem_range, query_one]
    constructor
    · rintro ⟨p, ⟨u, ⟨⟨hu, he⟩, rfl⟩⟩, hp⟩
      rcases Option.map_eq_some'.mp hp with ⟨r', hr', hpr⟩
      have h1 : u = uid := congrArg Prod.fst hpr
      have h2 : r' = r := congrArg Prod.snd hpr
      subst h1; subst h2
      exact ⟨hu, he, hr'⟩
    · rintro ⟨hu, he, hr⟩
      exact ⟨(uid, net uid), ⟨uid, ⟨⟨hu, he⟩, rfl⟩⟩, by simp [hr]⟩
  · unfold query_miners_concurrently
    have hnd : ((List.range n).filter (fun uid => (endpoint uid).isSome)).Nodup :=
      (List.nodup_range n).filter _
    generalize (List.range n).filter (fun uid => (endpoint uid).isSome) = tasks at hnd
    induction tasks with
    | nil => simp
    | cons u t ih =>
      rw [List.nodup_cons] at hnd
      have ht := ih hnd.2
      simp only [List.map_cons, List.filterMap_cons, query_one]
      cases hnu : net u with
      | none => simpa using ht
      | some r =>
        simp only [Option.map_some']
        rw [List.map_cons, List.nodup_cons]
        refine ⟨?_, ht⟩
        intro hmem
        rcases List.mem_map.mp hmem with ⟨q, hq, hq1⟩
        rcases List.mem_filterMap.mp hq with ⟨p, hp, hpq⟩
        rcases List.mem_map.mp hp with ⟨v, hv, rfl⟩
        rcases Option.map_eq_some'.mp hpq with ⟨r', _, hqr⟩
        have hqv : q.1 = v := by
          rw [← hqr]
          simp [query_one]
        have hqu : q.1 = u := by simpa using hq1
        have huv : u = v := by
          rw [← hqu]
          exact hqv
        exact hnd.1 (by rw [huv]; exact hv)

/-- Closed instance of `query_miners_success_only`: with two registered
miners where miner 0 responds and miner 1 times out, only miner 0's entry
is in the result. -/
theorem query_miners_success_only_witness :
    (0, "ok") ∈ query_miners_concurrently 2 (fun _ => some "u")
      (fun uid => if uid = 0 then some "ok" else none) :=
  ((query_miners_success_only 2 (fun _ => some "u")
    (fun uid => if uid = 0 then some "ok" else none)).1 0 "ok").mpr
    ⟨by norm_num, by simp, by simp⟩

/-! ## WeightSetter (docs/02-core-concepts.md) -/

/-- The single write-shared resource of the weight-setting cycle. -/
structure WeightSetterState where
  last_set_block : Int
deriving DecidableEq

/-- Result of one `set_weights_if_ready` call: the returned boolean, the
state after the call, and the weight list passed to `subtensor.set_weights`
when a submission was issued (`none` when the tick was skipped). -/
structure SetWeightsOutcome where
  success : Bool
  state : WeightSetterState
  submitted : Option (List ℚ)
deriving DecidableEq

/-- Translation of `WeightSetter.set_weights_if_ready`
(docs/02-core-concepts.md): skip the tick when fewer than `rate_limit`
blocks elapsed since `last_set_block`; otherwise normalize the weights when
their sum is positive, submit, and record the current block only when the
chain accepted the transaction. -/
def set_weights_if_ready (st : WeightSetterState) (current_block : Int)
    (rate_limit : Int) (weights : List ℚ) (chain_accepts : Bool) :
    SetWeightsOutcome :=
  if current_block - st.last_set_block < rate_limit then
    ⟨false, st, none⟩
  else
    let total := weights.sum
    let normalized := if 0 < total then weights.map (fun w => w / total) else weights
    if chain_accepts then ⟨true, ⟨current_block⟩, some normalized⟩
    else ⟨false, st, some normalized⟩

/-- C6: when the rate limit has not elapsed the cycle performs no chain
submission and leaves the last-set-block counter unchanged; and the counter
moves only on a tick whose submission was issued and accepted. -/
theorem set_weights_rate_limited (st : WeightSetterState) (current_block : Int)
    (rate_limit : Int) (weights : List ℚ) (chain_accepts : Bool) :
    (current_block - st.last_set_block < rate_limit →
      set_weights_if_ready st current_block rate_limit weights chain_accepts =
        ⟨false, st, none⟩) ∧
    ((set_weights_if_ready st current_block rate_limit weights chain_accepts).state ≠ st →
      chain_accepts = true ∧
      (set_weights_if_ready st current_block rate_limit weights chain_accepts).success = true ∧
      (set_weights_if_ready st current_block rate_limit weights chain_accepts).submitted ≠ none) := by
  unfold set_weights_if_ready
  by_cases hrl : current_block - st.last_set_block < rate_limit
  · rw [if_pos hrl]
    exact ⟨fun _ => rfl, fun h => absurd rfl h⟩
  · rw [if_neg hrl]
    refine ⟨fun h => absurd h hrl, ?_⟩
    by_cases hacc : chain_accepts
    · rw [if_pos hacc]
      exact fun _ => ⟨hacc, rfl, by simp⟩
    · rw [if_neg hacc]
      exact fun h => absurd rfl h

/-- Closed instance of `set_weights_rate_limited`: at block 12 with the
last submission at block 10 and a rate limit of 5 blocks, the tick is
skipped and the counter untouched. -/
theorem set_weights_rate_limited_witness :
    set_weights_if_ready ⟨10⟩ 12 5 [1] true = ⟨false, ⟨10⟩, none⟩ :=
  (set_weights_rate_limited ⟨10⟩ 12 5 [1] true).1 (by norm_num)

/-! ## The `/api/generate` proxy handler (Eclair/app/api/generate.js) and the
studio client (Eclair/app/src/components/StudioInput.tsx) -/

/-- A JSON field value as the handler produces and the client inspects. -/
inductive JVal
  | str (s : String)
  | num (n : Nat)
  | bool (b : Bool)
deriving DecidableEq

/-- JavaScript truthiness of a field value. -/
def JVal.truthy : JVal → Bool
  | JVal.str s => !(s == "")
  | JVal.num n => !(n == 0)
  | JVal.bool b => b

/-- Property access `data.k` on a JSON object: the first binding wins,
absence maps to `none` (undefined). -/
def lookupField (fields : List (String × JVal)) (k : String) : Option JVal :=
  (fields.find? (fun p => p.1 == k)).map Prod.snd

/-- JavaScript truthiness of `data.k`: absent fields are falsy. -/
def truthyField (fields : List (String × JVal)) (k : String) : Bool :=
  match lookupField fields k with
  | none => false
  | some v => v.truthy

/-- JavaScript truthiness of an optional string (absent or empty is falsy). -/
def truthyStr : Option String → Bool
  | none => false
  | some s => !(s == "")

/-- `sub` occurs as a contiguous run of `l`. -/
def charsContain (sub : List Char) : List Char → Bool
  | [] => sub.isEmpty
  | b :: bs => sub.isPrefixOf (b :: bs) || charsContain sub bs

/-- `a.includes(b)` on strings. -/
def strIncludes (s sub : String) : Bool :=
  charsContain sub.toList s.toList

/-- Base64 alphabet. -/
def b64Alphabet : List Char :=
  "ABCDEFGHIJKLMNOPQRSTUVWXYZabcdefghijklmnopqrstuvwxyz0123456789+/".toList

def b64Char (n : Nat) : Char :=
  b64Alphabet.getD n '='

/-- Standard padded base64 over a byte list, as
`Buffer.from(x).toString('base64')` produces. -/
def base64Encode : List Nat → String
  | [] => ""
  | [a] =>
    String.mk [b64Char (a / 4), b64Char (a % 4 * 16), '=', '=']
  | [a, b] =>
    String.mk [b64Char (a / 4), b64Char (a % 4 * 16 + b / 16), b64Char (b % 16 * 4), '=']
  | a :: b :: c :: rest =>
    String.mk [b64Char (a / 4), b64Char (a % 4 * 16 + b / 16),
      b64Char (b % 16 * 4 + c / 64), b64Char (c % 64)] ++ base64Encode rest

/-- Bytes of a body string under Node's `'binary'` encoding
(`charCodeAt & 0xFF`). -/
def strBytes (s : String) : List Nat :=
  s.toList.map (fun c => c.toNat % 256)

/-- The `data:video/mp4;base64,` data URL the handler wraps payloads in. -/
def videoDataUrl (payload : String) : String :=
  "data:video/mp4;base64," ++ base64Encode (strBytes payload)

/-- `responseText.startsWith('ftyp') || (responseText.length > 4 &&
responseText.charCodeAt(4) === 0x66)` — 0x66 is `'f'`.  (ASCII bodies make
JS UTF-16 length and Lean's character count coincide.) -/
def looksLikeMp4 (text : String) : Bool :=
  "ftyp".toList.isPrefixOf text.toList ||
    (decide (4 < text.toList.length) && (text.toList.getD 4 'x' == 'f'))

/-- The incoming request as the handler destructures it: its method and the
`image` / `prompt` body fields (`none` models an absent field). -/
structure ApiRequest where
  method : String
  image : Option String
  prompt : Option String
deriving DecidableEq

/-- The request the handler issues to the external generation service. -/
structure OutboundRequest where
  url : String
  method : String
  body : List (String × JVal)
deriving DecidableEq

/-- The JSON body of the outbound generation request, field for field as
`generate.js` builds it. -/
def chutesBody (rawBase64 promptText : String) : List (String × JVal) :=
  [("fps", JVal.num 16), ("fast", JVal.bool true), ("image", JVal.str rawBase64),
   ("prompt", JVal.str promptText), ("frames", JVal.num 81),
   ("resolution", JVal.str "480p")]

/-- Split a character list at every occurrence of `c`, as
`String.prototype.split` does. -/
def splitOnChar (c : Char) : List Char → List (List Char)
  | [] => [[]]
  | a :: as =>
    let r := splitOnChar c as
    if a == c then [] :: r
    else
      match r with
      | [] => [[a]]
      | h :: t => (a :: h) :: t

/-- `if (image.includes(',')) rawBase64 = image.split(',')[1]` — drop a
data-URL head before forwarding. -/
def stripDataUrlHead (image : String) : String :=
  if image.toList.contains ',' then
    String.mk ((splitOnChar ',' image.toList).getD 1 [])
  else image

/-- The external service's reply: HTTP `ok` flag and status, the
`content-type` header, the body text, and `json` — the result of
`JSON.parse` on that text (`some fields` exactly when the text parses as a
JSON object), supplied by the environment since the embedding does not
re-implement a JSON parser. -/
structure UpstreamResponse where
  ok : Bool
  status : Nat
  contentType : String
  text : String
  json : Option (List (String × JVal))
deriving DecidableEq

/-- Outcome of the outbound `fetch`: a thrown error or a response. -/
inductive FetchResult
  | netError
  | response (r : UpstreamResponse)
deriving DecidableEq

/-- What the handler sends back: HTTP status, JSON body, and the outbound
generation request it issued (`none` when no `fetch` was made). -/
structure HandlerResult where
  status : Nat
  body : List (String × JVal)
  outbound : Option OutboundRequest
deriving DecidableEq

/-- `contentType.includes('video') || contentType.includes('octet-stream')`. -/
def declaredVideoCT (r : UpstreamResponse) : Bool :=
  strIncludes r.contentType "video" || strIncludes r.contentType "octet-stream"

/-- The parsed body contains a truthy `video` or `url` reference. -/
def jsonVideoRef (r : UpstreamResponse) : Bool :=
  match r.json with
  | some data => truthyField data "video" || truthyField data "url"
  | none => false

/-- Translation of the `/api/generate` handler (Eclair/app/api/generate.js):
reject non-POST (405) and a missing API key (500); reject a falsy `image`
or `prompt` with 400 before any outbound call; otherwise strip the data-URL
prefix, POST the six-field body to the generation service, and map the
reply — non-OK statuses propagate as errors, video/octet-stream content
types and MP4-looking or unparseable bodies are wrapped as video data URLs,
and parseable JSON is passed through verbatim. -/
def handler (apiKey : Option String) (req : ApiRequest) (chutes : FetchResult) :
    HandlerResult :=
  if req.method != "POST" then
    ⟨405, [("error", JVal.str "Method not allowed")], none⟩
  else
    match apiKey with
    | none => ⟨500, [("error", JVal.str "API key not configured")], none⟩
    | some _ =>
      if !(truthyStr req.image && truthyStr req.prompt) then
        ⟨400, [("error", JVal.str "Image and prompt are required")], none⟩
      else
        let rawBase64 := stripDataUrlHead (req.image.getD "")
        let ob : OutboundRequest :=
          ⟨"https://chutes-wan-2-2-i2v-14b-fast.chutes.ai/generate", "POST",
            chutesBody rawBase64 (req.prompt.getD "")⟩
        match chutes with
        | FetchResult.netError =>
          ⟨500, [("error", JVal.str "Internal server error")], some ob⟩
        | FetchResult.response r =>
          if !r.ok then
            ⟨r.status, [("error", JVal.str "Generation failed"),
              ("details", JVal.str r.text)], some ob⟩
          else if declaredVideoCT r then
            ⟨200, [("video", JVal.str (videoDataUrl r.text))], some ob⟩
          else if looksLikeMp4 r.text then
            ⟨200, [("video", JVal.str (videoDataUrl r.text))], some ob⟩
          else
            match r.json with
            | some data => ⟨200, data, some ob⟩
            | none => ⟨200, [("video", JVal.str (videoDataUrl r.text))], some ob⟩

/-- `response.ok`: status in the 2xx range. -/
def statusOk (s : Nat) : Bool :=
  decide (200 ≤ s) && decide (s < 300)

/-- What the studio records at the end of `handleGenerate`: a playing video
URL or an error message. -/
inductive ClientOutcome
  | video (url : String)
  | failure (message : String)
deriving DecidableEq

/-- String the client would put into the video element for a field value. -/
def jvalAsUrl : Option JVal → String
  | some (JVal.str s) => s
  | some (JVal.num n) => toString n
  | some (JVal.bool b) => toString b
  | none => ""

/-- Translation of the response handling in `handleGenerate`
(StudioInput.tsx): non-OK statuses throw `data.error || 'Generation
failed'`; otherwise a truthy `data.video`, then a truthy `data.url`, is
accepted as the video, and anything else throws `'No video in response'`. -/
def clientInterpret (resp : HandlerResult) : ClientOutcome :=
  if !statusOk resp.status then
    ClientOutcome.failure
      (match lookupField resp.body "error" with
       | some (JVal.str m) => if m == "" then "Generation failed" else m
       | _ => "Generation failed")
  else if truthyField resp.body "video" then
    ClientOutcome.video (jvalAsUrl (lookupField resp.body "video"))
  else if truthyField resp.body "url" then
    ClientOutcome.video (jvalAsUrl (lookupField resp.body "url"))
  else ClientOutcome.failure "No video in response"

/-- Leading-whitespace removal over characters (space, tab, newline,
carriage return — the whitespace the studio's prompts can contain). -/
def dropLeadingWS : List Char → List Char
  | [] => []
  | c :: cs =>
    if c == ' ' || c == '\t' || c == '\n' || c == '\r' then dropLeadingWS cs
    else c :: cs

/-- `prompt.trim()`: strip whitespace from both ends. -/
def jsTrim (s : String) : String :=
  String.mk ((dropLeadingWS (dropLeadingWS s.toList.reverse).reverse))

/-- The full studio round trip: the client-side guard on `image` and
`prompt.trim()`, the POST to `/api/generate`, and the interpretation of the
handler's reply. -/
def studioGenerate (apiKey : Option String) (image : Option String)
    (promptText : String) (chutes : FetchResult) : ClientOutcome :=
  if !(truthyStr image && !(jsTrim promptText == "")) then
    ClientOutcome.failure "Please upload an image and enter a prompt"
  else clientInterpret (handler apiKey ⟨"POST", image, some (jsTrim promptText)⟩ chutes)

theorem string_data_append (a b : String) : (a ++ b).data = a.data ++ b.data := rfl

theorem videoDataUrl_ne_empty (t : String) : ¬(videoDataUrl t = "") := by
  intro h
  have h2 : (videoDataUrl t).data = ("" : String).data := congrArg String.data h
  rw [videoDataUrl, string_data_append] at h2
  rw [List.append_eq_nil] at h2
  exact absurd h2.1 (by decide)

theorem studioGenerate_valid (k img p : String) (ch : FetchResult)
    (himg : ¬(img = "")) (hp : ¬(jsTrim p = "")) :
    studioGenerate (some k) (some img) p ch =
      clientInterpret (handler (some k) ⟨"POST", some img, some (jsTrim p)⟩ ch) := by
  unfold studioGenerate
  simp [truthyStr, himg, hp]

theorem truthy_pair (img pr : String) (himg : ¬(img = "")) (hpr : ¬(pr = "")) :
    (truthyStr (some img) && truthyStr (some pr)) = true := by
  simp [truthyStr, himg, hpr]

/-- C8 counterexample: a 200 reply with content type `text/plain`, body
`hello`, which neither declares video by content-type nor parses as JSON
(let alone carries a video reference).  The handler "assumes it's video
data", wraps the text in a base64 data URL, and the studio accepts it as
the generated video — no error is recorded anywhere. -/
theorem generate_accepts_nonvideo_body :
    declaredVideoCT ⟨true, 200, "text/plain", "hello", none⟩ = false ∧
    jsonVideoRef ⟨true, 200, "text/plain", "hello", none⟩ = false ∧
    studioGenerate (some "key") (some "img") "a prompt"
        (FetchResult.response ⟨true, 200, "text/plain", "hello", none⟩) =
      ClientOutcome.video "data:video/mp4;base64,aGVsbG8=" := by
  refine ⟨by decide, by decide, by decide⟩

/-- C8 (amended): on a valid studio request, a non-OK upstream status is
recorded as the failure `Generation failed`, and a parseable JSON body
without a truthy `video`/`url` reference as the failure `No video in
response`; but an OK response that is neither declared video by
content-type, nor MP4-looking, nor parseable JSON is not a hard failure:
the handler wraps the raw body as a video data URL and the client accepts
it as the generated video. -/
theorem generate_response_handling (k img p : String) (r : UpstreamResponse)
    (himg : ¬(img = "")) (hp : ¬(jsTrim p = ""))
    (hok : r.ok = statusOk r.status) :
    (r.ok = false →
      studioGenerate (some k) (some img) p (FetchResult.response r) =
        ClientOutcome.failure "Generation failed") ∧
    (∀ data, r.ok = true → declaredVideoCT r = false → looksLikeMp4 r.text = false →
      r.json = some data → jsonVideoRef r = false →
      studioGenerate (some k) (some img) p (FetchResult.response r) =
        ClientOutcome.failure "No video in response") ∧
    (r.ok = true → declaredVideoCT r = false → looksLikeMp4 r.text = false →
      r.json = none →
      studioGenerate (some k) (some img) p (FetchResult.response r) =
        ClientOutcome.video (videoDataUrl r.text)) := by
  have hvalid := studioGenerate_valid k img p (FetchResult.response r) himg hp
  have ht := truthy_pair img (jsTrim p) himg hp
  refine ⟨?_, ?_, ?_⟩
  · intro hro
    have hs : statusOk r.status = false := hok.symm.trans hro
    rw [hvalid]
    simp [handler, ht, hro, clientInterpret, hs, lookupField]
  · intro data hro hct hmp hj href
    have hrefs : (truthyField data "video" || truthyField data "url") = false := by
      rw [jsonVideoRef, hj] at href
      exact href
    rcases Bool.or_eq_false_iff.mp hrefs with ⟨hv, hu⟩
    rw [hvalid]
    simp [handler, ht, hro, hct, hmp, hj, clientInterpret, statusOk, hv, hu]
  · intro hro hct hmp hj
    rw [hvalid]
    have hne := videoDataUrl_ne_empty r.text
    rw [videoDataUrl] at hne
    simp [handler, ht, hro, hct, hmp, hj, clientInterpret, statusOk,
      truthyField, lookupField, JVal.truthy, jvalAsUrl, videoDataUrl, hne]

/-- Closed instance of `generate_response_handling`: an OK
`application/json` reply whose body is the empty JSON object carries no
video reference, and the studio records `No video in response`. -/
theorem generate_response_handling_witness :
    studioGenerate (some "k") (some "img") "a prompt"
        (FetchResult.response ⟨true, 200, "application/json", "\x7b\x7d", some []⟩) =
      ClientOutcome.failure "No video in response" :=
  (generate_response_handling "k" "img" "a prompt"
      ⟨true, 200, "application/json", "\x7b\x7d", some []⟩
      (by decide) (by decide) (by decide)).2.1
    [] (by decide) (by decide) (by decide) rfl (by decide)

/-- C9: whenever the handler issues its outbound generation request, that
request is a POST whose JSON body carries exactly the six fields `image`,
`prompt`, `fps`, `frames`, `resolution` and `fast`. -/
theorem outbound_request_fields (apiKey : Option String) (req : ApiRequest)
    (chutes : FetchResult) (o : OutboundRequest)
    (h : (handler apiKey req chutes).outbound = some o) :
    o.method = "POST" ∧
    (o.body.map Prod.fst).Perm ["image", "prompt", "fps", "frames", "resolution", "fast"] := by
  have hshape : o.body = chutesBody (stripDataUrlHead (req.image.getD ""))
      (req.prompt.getD "") ∧ o.method = "POST" := by
    unfold handler at h
    by_cases hm : req.method != "POST"
    · rw [if_pos hm] at h
      simp at h
    · rw [if_neg hm] at h
      rcases apiKey with _ | k
      · simp at h
      · dsimp only at h
        by_cases htr : !(truthyStr req.image && truthyStr req.prompt)
        · rw [if_pos htr] at h
          simp at h
        · rw [if_neg htr] at h
          rcases chutes with _ | r
          · dsimp only at h
            simp at h
            exact ⟨by rw [← h], by rw [← h]⟩
          · dsimp only at h
            by_cases hro : !r.ok
            · rw [if_pos hro] at h
              simp at h
              exact ⟨by rw [← h], by rw [← h]⟩
            · rw [if_neg hro] at h
              by_cases hct : declaredVideoCT r
              · rw [if_pos hct] at h
                simp at h
                exact ⟨by rw [← h], by rw [← h]⟩
              · rw [if_neg hct] at h
                by_cases hmp : looksLikeMp4 r.text
                · rw [if_pos hmp] at h
                  simp at h
                  exact ⟨by rw [← h], by rw [← h]⟩
                · rw [if_neg hmp] at h
                  rcases hj : r.json with _ | data
                  · rw [hj] at h
                    simp at h
                    exact ⟨by rw [← h], by rw [← h]⟩
                  · rw [hj] at h
                    simp at h
                    exact ⟨by rw [← h], by rw [← h]⟩
  refine ⟨hshape.2, ?_⟩
  have hkeys : ∀ a b : String, (chutesBody a b).map Prod.fst =
      ["fps", "fast", "image", "prompt", "frames", "resolution"] := fun _ _ => rfl
  rw [hshape.1, hkeys]
  decide

/-- Closed instance of `outbound_request_fields`: the outbound request for
a concrete valid call is a POST carrying exactly the six contract fields. -/
theorem outbound_request_fields_witness :
    (⟨"https://chutes-wan-2-2-i2v-14b-fast.chutes.ai/generate", "POST",
        chutesBody "img" "pr"⟩ : OutboundRequest).method = "POST" ∧
    (((⟨"https://chutes-wan-2-2-i2v-14b-fast.chutes.ai/generate", "POST",
        chutesBody "img" "pr"⟩ : OutboundRequest).body.map Prod.fst).Perm
      ["image", "prompt", "fps", "frames", "resolution", "fast"]) :=
  outbound_request_fields (some "k") ⟨"POST", some "img", some "pr"⟩
    FetchResult.netError
    ⟨"https://chutes-wan-2-2-i2v-14b-fast.chutes.ai/generate", "POST",
      chutesBody "img" "pr"⟩ (by decide)

/-- C10: a POST whose body lacks the `image` field or the `prompt` field is
answered with status 400 and the error `Image and prompt are required`, and
no outbound request to the generation service is issued (assuming the
server's API key is configured — without it the handler answers 500 `API
key not configured` before reading the body). -/
theorem missing_fields_rejected (k : String) (req : ApiRequest)
    (chutes : FetchResult) (hm : req.method = "POST")
    (h : req.image = none ∨ req.prompt = none) :
    handler (some k) req chutes =
      ⟨400, [("error", JVal.str "Image and prompt are required")], none⟩ := by
  have hcond : (truthyStr req.image && truthyStr req.prompt) = false := by
    rcases h with h | h <;> simp [h, truthyStr]
  simp [handler, hm, hcond]

/-- Closed instance of `missing_fields_rejected`: a POST with a prompt but
no image is rejected with 400 and no outbound request. -/
theorem missing_fields_rejected_witness :
    handler (some "k") ⟨"POST", none, some "a prompt"⟩ FetchResult.netError =
      ⟨400, [("error", JVal.str "Image and prompt are required")], none⟩ :=
  missing_fields_rejected "k" ⟨"POST", none, some "a prompt"⟩
    FetchResult.netError rfl (Or.inl rfl)

end Eclair
